import Mathlib

/-!
Shallow embedding of the log ingestion and dispatch pipeline of the
pganalyze collector, centred on `AnalyzeInGroupsAndSend` from
`input/system/logs/send.go`.

Modelling conventions:
* `time.Time` values are integers (nanoseconds); `now.Sub(t) > 3*time.Second`
  becomes `3000000000 < now - t`.
* String contents are Lean `String`s; Go's byte lengths and byte slicing are
  modelled as character lengths and character slicing of the same contents
  (the two agree on single-byte characters, and all claims are stated over
  the same length function used by the embedded writer).
* External collaborators (the temp-file system call, `WriteString`,
  `AnalyzeBackendLogLines`, `grant.GetLogsGrant`, `output.UploadAndSendLogs`)
  are oracles supplied in a `SendEnv`; the embedded function records its
  observable effects (temp store allocation, store releases, test-channel
  sends, grant fetches, upload calls) in a `SendEffects` record.
* Go's `map[int32][]LogLine` built by appending each line to its key's slice
  holds, for key `p`, exactly the lines with backend pid `p` in their
  original order, i.e. `filter`; Go's unspecified map iteration order is
  fixed here to first-occurrence order of the keys.
-/

namespace Collector

/-- `pganalyze_collector.LogLineInformation_UNKNOWN` (the zero enum value). -/
def LogLineInformation_UNKNOWN : Nat := 0

/-- `pganalyze_collector.LogLineInformation_PGA_COLLECTOR_IDENTIFY`
(a fixed enum tag distinct from `UNKNOWN`). -/
def LogLineInformation_PGA_COLLECTOR_IDENTIFY : Nat := 100

/-- `state.LogLine`: one log record (the fields read or written by
`AnalyzeInGroupsAndSend`).  Defaults are the Go zero values. -/
structure LogLine where
  content : String
  logLevel : Nat
  backendPid : Int
  collectedAt : Int
  byteStart : Int := 0
  byteContentStart : Int := 0
  byteEnd : Int := 0
  classification : Nat := 0
  details : List (String × String) := []
deriving DecidableEq, Repr

/-- Query samples are opaque to this pipeline; only their multiset matters. -/
abbrev QuerySample := Nat

/-- `state.LogFile`: unique id, the temporary byte store (its contents), and
the packaged line records. -/
structure LogFile where
  uuid : Nat
  tmpFile : String
  logLines : List LogLine
deriving DecidableEq, Repr

/-- `state.LogState`: the batch envelope. -/
structure LogState where
  collectedAt : Int
  logFiles : List LogFile := []
  querySamples : List QuerySample := []
deriving DecidableEq, Repr

/-- `state.Grant` (the field this pipeline reads). -/
structure Grant where
  valid : Bool
deriving DecidableEq, Repr

/-- `state.Server` (the field this pipeline reads: `Config.SectionName`). -/
structure Server where
  sectionName : String
deriving DecidableEq, Repr

/-- `state.CollectionOpts` (the fields this pipeline reads). -/
structure CollectionOpts where
  debugLogs : Bool
  testRun : Bool
deriving DecidableEq, Repr

/-- The external world of one `AnalyzeInGroupsAndSend` call: the clock, the
uuid draw, whether the temp-file allocation fails, which writes fail (by
write index), the analyzer collaborator, the grant fetch result (`none` is a
fetch error), and whether the upload fails. -/
structure SendEnv where
  now : Int
  uuid : Nat
  tmpFileErr : Bool
  writeErr : Nat → Bool
  analyze : List LogLine → List LogLine × List QuerySample
  grantResult : Option Grant
  uploadErr : Bool

/-- Observable effects of one call. `cleanedFiles` lists the log files whose
temporary stores were deleted by `Cleanup` calls; `testSignals` counts sends
on the `logTestSucceeded` channel; `grantAttempts` counts `GetLogsGrant`
calls; `uploads` lists the `UploadAndSendLogs` arguments. -/
structure SendEffects where
  tmpAllocated : Bool
  cleanedFiles : List LogFile
  testSignals : Nat
  grantAttempts : Nat
  uploads : List LogState
deriving DecidableEq, Repr

/-- Return value plus effects of one call. -/
structure SendResult where
  backlog : List LogLine
  effects : SendEffects
deriving DecidableEq, Repr

/-! ### Stage 1: stitcher -/

/-- One step of the stitching loop.  The accumulator is kept reversed (its
head is the most recently accepted line): a line with a known level or a
nonzero backend pid is accepted; otherwise it is a fragment, appended with a
single space to the most recently accepted line, or dropped if none exists. -/
def stitchStep (acc : List LogLine) (l : LogLine) : List LogLine :=
  if l.logLevel != LogLineInformation_UNKNOWN || l.backendPid != 0 then
    l :: acc
  else
    match acc with
    | [] => []
    | last :: rest =>
      { last with content := last.content ++ " " ++ l.content } :: rest

/-- The stitching loop over the raw input lines (`stitchedLogLines`). -/
def stitch (logLines : List LogLine) : List LogLine :=
  (logLines.foldl stitchStep []).reverse

/-! ### Stage 2: readiness windower -/

/-- `3 * time.Second` in nanoseconds. -/
def threeSecondsNs : Int := 3000000000

/-- `now.Sub(logLine.CollectedAt) > 3*time.Second`. -/
def isReady (now : Int) (l : LogLine) : Bool :=
  decide (threeSecondsNs < now - l.collectedAt)

/-- `readyLogLines`: the stitched lines older than the window. -/
def readyOf (env : SendEnv) (logLines : List LogLine) : List LogLine :=
  (stitch logLines).filter (isReady env.now)

/-- `tooFreshLogLines`: the stitched lines still inside the window. -/
def tooFreshOf (env : SendEnv) (logLines : List LogLine) : List LogLine :=
  (stitch logLines).filter (fun l => !(isReady env.now l))

/-! ### Stage 5 in source order: packager (runs before grouping) -/

/-- The packaging loop: write each ready line's content into the store,
recording absolute byte offsets.  A failed write logs and `break`s: the
current and all later lines keep their previous (stale) offsets and nothing
more is written. -/
def packageLoop (writeErr : Nat → Bool) :
    Nat → Int → String → List LogLine → List LogLine × String
  | _, _, store, [] => ([], store)
  | idx, cur, store, l :: rest =>
    if writeErr idx then
      (l :: rest, store)
    else
      let l' := { l with byteStart := cur, byteContentStart := cur,
                         byteEnd := cur + (l.content.length : Int) - 1 }
      let r := packageLoop writeErr (idx + 1) (cur + (l.content.length : Int))
                 (store ++ l.content) rest
      (l' :: r.1, r.2)

/-- The packager on a fresh store with `currentByteStart = 0`. -/
def packageLines (writeErr : Nat → Bool) (ready : List LogLine) :
    List LogLine × String :=
  packageLoop writeErr 0 0 "" ready

/-- The always-succeeding write oracle. -/
def noWriteErr : Nat → Bool := fun _ => false

/-! ### Stage 3: backend grouper / joiner -/

/-- The backend pids of the ready lines, in first-occurrence order (Go
iterates `backendLogLines` in unspecified order; this fixes one order). -/
def backendPids (ready : List LogLine) : List Int :=
  ready.foldl (fun ks l => if l.backendPid ∈ ks then ks else ks ++ [l.backendPid]) []

/-- The group of one backend pid: Go appends every line to its pid's slice in
input order, so the slice for `p` is exactly this filter. -/
def backendGroup (ready : List LogLine) (p : Int) : List LogLine :=
  ready.filter (fun l => l.backendPid == p)

/-- One step of the per-backend joining loop (`analyzableLogLines`), with the
accumulator reversed (head = most recently pushed line): a classified line is
pushed; an unknown-level line extends the last pushed line's content (no
separator) and its end offset, or is dropped if nothing was pushed yet. -/
def joinStep (acc : List LogLine) (l : LogLine) : List LogLine :=
  if l.logLevel != LogLineInformation_UNKNOWN then
    l :: acc
  else
    match acc with
    | [] => []
    | last :: rest =>
      { last with content := last.content ++ l.content,
                  byteEnd := last.byteEnd + (l.content.length : Int) } :: rest

/-- The joining loop's reversed accumulator for one backend group. -/
def joinAcc (g : List LogLine) : List LogLine :=
  g.foldl joinStep []

/-- `analyzableLogLines` for one backend group, in output order. -/
def joinGroup (g : List LogLine) : List LogLine :=
  (joinAcc g).reverse

/-- Per-group analysis loop: joins each group, hands it to the analyzer, and
concatenates the output lines and samples in group order. -/
def analyzeGroups (analyze : List LogLine → List LogLine × List QuerySample)
    (groups : List (List LogLine)) : List LogLine × List QuerySample :=
  groups.foldl
    (fun acc g =>
      let r := analyze (joinGroup g)
      (acc.1 ++ r.1, acc.2 ++ r.2))
    ([], [])

/-! ### Dispatcher helpers -/

/-- Go map lookup `Details["config_section"]` (zero value `""` when absent). -/
def lookupDetail (ds : List (String × String)) (k : String) : String :=
  match ds.find? (fun p => p.1 == k) with
  | some p => p.2
  | none => ""

/-- The test-mode match: identity-marker classification whose
`config_section` detail equals the locally configured section name. -/
def matchesIdentify (server : Server) (l : LogLine) : Bool :=
  l.classification == LogLineInformation_PGA_COLLECTOR_IDENTIFY &&
    lookupDetail l.details "config_section" == server.sectionName

/-- Modelled from the spec: `state.LogState.Cleanup` is not under `src/`.
Per the spec's data model, releasing a `LogState` releases the temporary
stores of the `LogFile`s it holds (it holds zero or one); we model the call
as yielding the list of files whose stores get deleted. -/
def cleanup (ls : LogState) : List LogFile :=
  ls.logFiles

/-! ### The pipeline, intermediate stages named for the theorems -/

/-- `packageLines` applied to this call's ready lines. -/
def packedOf (env : SendEnv) (logLines : List LogLine) : List LogLine × String :=
  packageLines env.writeErr (readyOf env logLines)

/-- The per-backend groups of the packaged ready lines. -/
def groupsOf (env : SendEnv) (logLines : List LogLine) : List (List LogLine) :=
  (backendPids (packedOf env logLines).1).map (backendGroup (packedOf env logLines).1)

/-- All analyzer output over the groups. -/
def analyzedOf (env : SendEnv) (logLines : List LogLine) :
    List LogLine × List QuerySample :=
  analyzeGroups env.analyze (groupsOf env logLines)

/-- `logFile.LogLines` of this call. -/
def fileLinesOf (env : SendEnv) (logLines : List LogLine) : List LogLine :=
  (analyzedOf env logLines).1

/-- `logState.QuerySamples` of this call. -/
def samplesOf (env : SendEnv) (logLines : List LogLine) : List QuerySample :=
  (analyzedOf env logLines).2

/-- The packaged `logFile` of this call. -/
def logFileOf (env : SendEnv) (logLines : List LogLine) : LogFile :=
  { uuid := env.uuid, tmpFile := (packedOf env logLines).2,
    logLines := fileLinesOf env logLines }

/-- The number of test-mode matches among the output lines. -/
def matchCountOf (server : Server) (env : SendEnv) (logLines : List LogLine) : Nat :=
  ((fileLinesOf env logLines).filter (matchesIdentify server)).length

/-- `AnalyzeInGroupsAndSend` from `input/system/logs/send.go`, one branch per
Go return path, in source order. -/
def AnalyzeInGroupsAndSend (server : Server) (logLines : List LogLine)
    (globalCollectionOpts : CollectionOpts) (env : SendEnv) : SendResult :=
  let tooFreshLogLines := tooFreshOf env logLines
  if (readyOf env logLines).isEmpty then
    { backlog := tooFreshLogLines,
      effects := { tmpAllocated := false, cleanedFiles := [], testSignals := 0,
                   grantAttempts := 0, uploads := [] } }
  else if env.tmpFileErr then
    -- "Could not allocate tempfile for logs"
    { backlog := logLines,
      effects := { tmpAllocated := false, cleanedFiles := [], testSignals := 0,
                   grantAttempts := 0, uploads := [] } }
  else
    let logFile := logFileOf env logLines
    let logState0 : LogState :=
      { collectedAt := env.now, logFiles := [], querySamples := samplesOf env logLines }
    if (fileLinesOf env logLines).isEmpty && (samplesOf env logLines).isEmpty then
      -- Nothing to send; note Cleanup runs before logState.LogFiles is set.
      { backlog := tooFreshLogLines,
        effects := { tmpAllocated := true, cleanedFiles := cleanup logState0,
                     testSignals := 0, grantAttempts := 0, uploads := [] } }
    else
      let logState : LogState := { logState0 with logFiles := [logFile] }
      if globalCollectionOpts.debugLogs then
        { backlog := tooFreshLogLines,
          effects := { tmpAllocated := true, cleanedFiles := cleanup logState,
                       testSignals := 0, grantAttempts := 0, uploads := [] } }
      else if globalCollectionOpts.testRun then
        { backlog := tooFreshLogLines,
          effects := { tmpAllocated := true, cleanedFiles := cleanup logState,
                       testSignals := matchCountOf server env logLines,
                       grantAttempts := 0, uploads := [] } }
      else
        match env.grantResult with
        | none =>
          -- "Could not get log grant": Retry
          { backlog := logLines,
            effects := { tmpAllocated := true, cleanedFiles := cleanup logState,
                         testSignals := 0, grantAttempts := 1, uploads := [] } }
        | some g =>
          if !g.valid then
            -- "Log collection disabled from server, skipping"
            { backlog := tooFreshLogLines,
              effects := { tmpAllocated := true, cleanedFiles := cleanup logState,
                           testSignals := 0, grantAttempts := 1, uploads := [] } }
          else if env.uploadErr then
            -- "Failed to upload/send logs": Retry
            { backlog := logLines,
              effects := { tmpAllocated := true, cleanedFiles := cleanup logState,
                           testSignals := 0, grantAttempts := 1,
                           uploads := [logState] } }
          else
            { backlog := tooFreshLogLines,
              effects := { tmpAllocated := true, cleanedFiles := cleanup logState,
                           testSignals := 0, grantAttempts := 1,
                           uploads := [logState] } }

/-- The stores handed to the upload collaborator, for stating what was sent. -/
def uploadedStores (r : SendResult) : List String :=
  r.effects.uploads.foldl (fun acc s => acc ++ s.logFiles.map LogFile.tmpFile) []


/-! ### String and list helpers -/

theorem strAppend_empty (s : String) : s ++ "" = s := by
  cases s with
  | mk l => show String.mk (l ++ []) = String.mk l; rw [List.append_nil]

theorem strEmpty_append (s : String) : "" ++ s = s := by
  cases s with
  | mk l => rfl

theorem strAppend_assoc (a b c : String) : (a ++ b) ++ c = a ++ (b ++ c) := by
  cases a; cases b; cases c
  show String.mk _ = String.mk _; rw [List.append_assoc]

theorem strLength_append (a b : String) : (a ++ b).length = a.length + b.length := by
  cases a; cases b
  show (String.mk _).length = _
  simp [String.length]

theorem strData_append (a b : String) : (a ++ b).data = a.data ++ b.data := by
  cases a; cases b; rfl

/-- Concatenation of the contents of a list of lines. -/
def concatContents : List LogLine → String
  | [] => ""
  | l :: rest => l.content ++ concatContents rest

theorem concatContents_append (a b : List LogLine) :
    concatContents (a ++ b) = concatContents a ++ concatContents b := by
  induction a with
  | nil => simp [concatContents, strEmpty_append]
  | cons l rest ih => simp [concatContents, ih, strAppend_assoc]

/-! ### Windowing helpers -/

theorem mem_readyOf {env : SendEnv} {logLines : List LogLine} {l : LogLine} :
    l ∈ readyOf env logLines ↔ l ∈ stitch logLines ∧ isReady env.now l = true := by
  simp [readyOf, List.mem_filter]

theorem mem_tooFreshOf {env : SendEnv} {logLines : List LogLine} {l : LogLine} :
    l ∈ tooFreshOf env logLines ↔ l ∈ stitch logLines ∧ isReady env.now l = false := by
  simp [tooFreshOf, List.mem_filter]

/-- Every return path hands back either the raw input (full retry) or the
too-fresh partition. -/
theorem backlog_cases (server : Server) (logLines : List LogLine)
    (opts : CollectionOpts) (env : SendEnv) :
    (AnalyzeInGroupsAndSend server logLines opts env).backlog = logLines ∨
    (AnalyzeInGroupsAndSend server logLines opts env).backlog = tooFreshOf env logLines := by
  unfold AnalyzeInGroupsAndSend
  repeat' split
  all_goals simp


/-! ### Concrete demonstration inputs used by witnesses and counterexamples -/

/-- A classified ready line (observed 10s before `demoEnv.now`). -/
def demoR : LogLine := { content := "r", logLevel := 1, backendPid := 1, collectedAt := 0 }

/-- A classified too-fresh line (observed 1s before `demoEnv.now`). -/
def demoA : LogLine := { content := "a", logLevel := 1, backendPid := 2, collectedAt := 9000000000 }

/-- A fragment (unknown level, zero pid). -/
def demoF : LogLine := { content := "b", logLevel := 0, backendPid := 0, collectedAt := 9500000000 }

/-- `demoA` after the stitcher merges `demoF` into it. -/
def demoA' : LogLine := { demoA with content := "a b" }

/-- Baseline environment: writes succeed, analysis echoes its input, the
grant fetch fails. -/
def demoEnv : SendEnv :=
  { now := 10000000000, uuid := 0, tmpFileErr := false, writeErr := noWriteErr,
    analyze := fun ls => (ls, []), grantResult := none, uploadErr := false }

/-- Normal-mode options. -/
def demoOpts : CollectionOpts := { debugLogs := false, testRun := false }

/-- Server context with configured identity section `"s"`. -/
def demoServer : Server := { sectionName := "s" }

/-! ### C5: stitching -/

/-- **C5** (stitching): a classified line `L` (known level or nonzero backend
pid) immediately followed by a fragment `F` (unknown level and zero pid)
stitches to the single line `L` with content `L.content ++ " " ++ F.content`
and all other attributes unchanged; and a fragment arriving before any
accepted non-fragment line is silently discarded. -/
theorem C5_stitching (L F : LogLine)
    (hL : L.logLevel ≠ LogLineInformation_UNKNOWN ∨ L.backendPid ≠ 0)
    (hF : F.logLevel = LogLineInformation_UNKNOWN ∧ F.backendPid = 0) :
    stitch [L, F] = [{ L with content := L.content ++ " " ++ F.content }] ∧
    ∀ rest, stitch (F :: rest) = stitch rest := by
  have hLb : (L.logLevel != LogLineInformation_UNKNOWN || L.backendPid != 0) = true := by
    rcases hL with h | h <;> simp [h]
  have hFb : (F.logLevel != LogLineInformation_UNKNOWN || F.backendPid != 0) = false := by
    simp [hF.1, hF.2]
  have hstep : stitchStep [] F = [] := by
    simp [stitchStep, hFb]
  constructor
  · simp [stitch, List.foldl, stitchStep, hLb, hFb]
  · intro rest
    simp [stitch, List.foldl, hstep]

/-- Witness for C5 at concrete lines. -/
theorem C5_stitching_witness :
    stitch [demoA, demoF] = [demoA'] ∧ stitch [demoF] = stitch [] :=
  ⟨(C5_stitching demoA demoF (by decide) (by decide)).1,
   (C5_stitching demoA demoF (by decide) (by decide)).2 []⟩

/-! ### C4: windowing -/

/-- **C4 counterexample**: the stitched line `demoA'` is inside the 3-second
window (not ready), yet on the grant-fetch-failure path the function returns
the raw input `[demoR, demoA, demoF]`, in which the stitched line does not
appear — so a too-fresh stitched line does *not* always appear in the
returned backlog. -/
theorem C4_windowing_counterexample :
    isReady demoEnv.now demoA' = false ∧
    demoA' ∈ stitch [demoR, demoA, demoF] ∧
    demoA' ∉ (AnalyzeInGroupsAndSend demoServer [demoR, demoA, demoF] demoOpts demoEnv).backlog := by
  decide

/-- **C4 amended** (windowing): a stitched line inside the 3-second window
never appears in the ready set and always lands in the too-fresh partition;
the returned backlog either is the raw original input (full-retry paths) or
contains the line unmodified (all other paths). -/
theorem C4_windowing (server : Server) (logLines : List LogLine)
    (opts : CollectionOpts) (env : SendEnv) (l : LogLine)
    (hmem : l ∈ stitch logLines) (hfresh : isReady env.now l = false) :
    l ∉ readyOf env logLines ∧ l ∈ tooFreshOf env logLines ∧
    ((AnalyzeInGroupsAndSend server logLines opts env).backlog = logLines ∨
      l ∈ (AnalyzeInGroupsAndSend server logLines opts env).backlog) := by
  have hnr : l ∉ readyOf env logLines := by
    intro h
    rw [mem_readyOf] at h
    rw [hfresh] at h
    exact Bool.false_ne_true h.2
  have htf : l ∈ tooFreshOf env logLines := mem_tooFreshOf.mpr ⟨hmem, hfresh⟩
  refine ⟨hnr, htf, ?_⟩
  rcases backlog_cases server logLines opts env with h | h
  · exact Or.inl h
  · exact Or.inr (h ▸ htf)

/-- Witness for the amended C4 at a concrete fresh line on the success path. -/
theorem C4_windowing_witness :
    demoA' ∉ readyOf { demoEnv with grantResult := some { valid := true } } [demoR, demoA, demoF] ∧
    demoA' ∈ tooFreshOf { demoEnv with grantResult := some { valid := true } } [demoR, demoA, demoF] ∧
    ((AnalyzeInGroupsAndSend demoServer [demoR, demoA, demoF] demoOpts
        { demoEnv with grantResult := some { valid := true } }).backlog = [demoR, demoA, demoF] ∨
      demoA' ∈ (AnalyzeInGroupsAndSend demoServer [demoR, demoA, demoF] demoOpts
        { demoEnv with grantResult := some { valid := true } }).backlog) :=
  C4_windowing demoServer [demoR, demoA, demoF] demoOpts
    { demoEnv with grantResult := some { valid := true } } demoA' (by decide) (by decide)


/-! ### C2: full retry -/

/-- **C2** (full retry): whenever the grant fetch fails (a fetch was
attempted and returned an error) or the upload fails (an upload was made and
returned an error), the function returns its original full input verbatim —
in particular the return value is set-equal to the entire input handed to
this tick. -/
theorem C2_full_retry (server : Server) (logLines : List LogLine)
    (opts : CollectionOpts) (env : SendEnv)
    (h : (env.grantResult = none ∧
            (AnalyzeInGroupsAndSend server logLines opts env).effects.grantAttempts ≠ 0) ∨
         (env.uploadErr = true ∧
            (AnalyzeInGroupsAndSend server logLines opts env).effects.uploads ≠ [])) :
    (AnalyzeInGroupsAndSend server logLines opts env).backlog = logLines := by
  unfold AnalyzeInGroupsAndSend at h ⊢
  repeat' split at h
  all_goals repeat' split
  all_goals first
    | rfl
    | (rcases h with ⟨h1, h2⟩ | ⟨h1, h2⟩ <;> simp_all)

/-- Witness for C2: concrete grant-fetch failure returns the full input. -/
theorem C2_full_retry_witness :
    (demoEnv.grantResult = none ∧
      (AnalyzeInGroupsAndSend demoServer [demoR, demoA, demoF] demoOpts demoEnv).effects.grantAttempts ≠ 0) ∧
    (AnalyzeInGroupsAndSend demoServer [demoR, demoA, demoF] demoOpts demoEnv).backlog =
      [demoR, demoA, demoF] :=
  ⟨⟨rfl, by decide⟩,
   C2_full_retry demoServer [demoR, demoA, demoF] demoOpts demoEnv (Or.inl ⟨rfl, by decide⟩)⟩

/-! ### C7: drop on denied grant -/

/-- **C7** (drop): if the grant fetch was made and returned a grant with
`Valid=false`, the function returns exactly the too-fresh partition, makes no
upload call, and no line of the ready set is in the return value. -/
theorem C7_drop (server : Server) (logLines : List LogLine)
    (opts : CollectionOpts) (env : SendEnv) (g : Grant)
    (hg : env.grantResult = some g) (hv : g.valid = false)
    (hatt : (AnalyzeInGroupsAndSend server logLines opts env).effects.grantAttempts ≠ 0) :
    (AnalyzeInGroupsAndSend server logLines opts env).backlog = tooFreshOf env logLines ∧
    (AnalyzeInGroupsAndSend server logLines opts env).effects.uploads = [] ∧
    ∀ l ∈ readyOf env logLines,
      l ∉ (AnalyzeInGroupsAndSend server logLines opts env).backlog := by
  have hback : (AnalyzeInGroupsAndSend server logLines opts env).backlog = tooFreshOf env logLines ∧
      (AnalyzeInGroupsAndSend server logLines opts env).effects.uploads = [] := by
    unfold AnalyzeInGroupsAndSend at hatt ⊢
    repeat' split at hatt
    all_goals repeat' split
    all_goals simp_all
  refine ⟨hback.1, hback.2, ?_⟩
  intro l hl hmem
  rw [hback.1] at hmem
  rw [mem_readyOf] at hl
  rw [mem_tooFreshOf] at hmem
  rw [hl.2] at hmem
  exact absurd hmem.2 (by decide)

/-- Witness for C7: concrete denied grant returns only the fresh line, makes
no upload, and drops the ready line `demoR`. -/
theorem C7_drop_witness :
    (AnalyzeInGroupsAndSend demoServer [demoR, demoA, demoF] demoOpts
        { demoEnv with grantResult := some { valid := false } }).backlog =
      tooFreshOf { demoEnv with grantResult := some { valid := false } } [demoR, demoA, demoF] ∧
    (AnalyzeInGroupsAndSend demoServer [demoR, demoA, demoF] demoOpts
        { demoEnv with grantResult := some { valid := false } }).effects.uploads = [] ∧
    demoR ∉ (AnalyzeInGroupsAndSend demoServer [demoR, demoA, demoF] demoOpts
        { demoEnv with grantResult := some { valid := false } }).backlog := by
  have h := C7_drop demoServer [demoR, demoA, demoF] demoOpts
    { demoEnv with grantResult := some { valid := false } } { valid := false } rfl rfl (by decide)
  exact ⟨h.1, h.2.1, h.2.2 demoR (by decide)⟩


/-! ### Joiner invariants -/

/-- Equality of all `LogLine` fields except `content` and `byteEnd` (the two
fields the joiner's continuation step mutates). -/
def sameExceptCE (a b : LogLine) : Prop :=
  a.logLevel = b.logLevel ∧ a.backendPid = b.backendPid ∧
  a.collectedAt = b.collectedAt ∧ a.byteStart = b.byteStart ∧
  a.byteContentStart = b.byteContentStart ∧
  a.classification = b.classification ∧ a.details = b.details

theorem sameExceptCE_refl (a : LogLine) : sameExceptCE a a :=
  ⟨rfl, rfl, rfl, rfl, rfl, rfl, rfl⟩

instance (a b : LogLine) : Decidable (sameExceptCE a b) := by
  unfold sameExceptCE; infer_instance

/-- Provenance of one joined line: a classified head line `c` of the group
followed by some of the group's later unknown-level lines, whose contents are
appended (in order, no separator) and whose total length extends `byteEnd`. -/
def JoinedFrom (g : List LogLine) (x : LogLine) : Prop :=
  ∃ c sub, (c :: sub).Sublist g ∧
    c.logLevel ≠ LogLineInformation_UNKNOWN ∧
    (∀ s ∈ sub, s.logLevel = LogLineInformation_UNKNOWN) ∧
    sameExceptCE x c ∧
    x.content = c.content ++ concatContents sub ∧
    x.byteEnd = c.byteEnd + ((concatContents sub).length : Int)

theorem JoinedFrom.mono {g g' : List LogLine} {x : LogLine}
    (h : JoinedFrom g x) : JoinedFrom (g ++ g') x := by
  obtain ⟨c, sub, hsub, hc, hlev, hsame, hcont, hend⟩ := h
  exact ⟨c, sub, hsub.trans (List.sublist_append_left g g'), hc, hlev, hsame, hcont, hend⟩

theorem joinStep_inv {g : List LogLine} {acc : List LogLine} (l : LogLine)
    (hacc : ∀ x ∈ acc, JoinedFrom g x) :
    ∀ x ∈ joinStep acc l, JoinedFrom (g ++ [l]) x := by
  intro x hx
  unfold joinStep at hx
  by_cases hl : l.logLevel = LogLineInformation_UNKNOWN
  · rw [if_neg (by simp [hl])] at hx
    match acc, hacc with
    | [], _ => exact absurd hx (by simp)
    | last :: rest, hacc =>
      rcases List.mem_cons.mp hx with hx | hx
      · obtain ⟨c, sub, hsub, hc, hlev, hsame, hcont, hend⟩ :=
          hacc last (List.mem_cons_self _ _)
        refine ⟨c, sub ++ [l], ?_, hc, ?_, ?_, ?_, ?_⟩
        · rw [show c :: (sub ++ [l]) = (c :: sub) ++ [l] from rfl]
          exact hsub.append (List.Sublist.refl [l])
        · intro s hs
          rcases List.mem_append.mp hs with hs | hs
          · exact hlev s hs
          · rw [List.mem_singleton.mp hs]; exact hl
        · rw [hx]; exact hsame
        · rw [hx]
          show last.content ++ l.content = _
          rw [hcont, concatContents_append, strAppend_assoc]
          show _ = c.content ++ (concatContents sub ++ (l.content ++ concatContents []))
          rw [show concatContents [] = "" from rfl, strAppend_empty]
        · rw [hx]
          show last.byteEnd + (l.content.length : Int) = _
          have hlen : (concatContents [l]).length = l.content.length := by
            rw [show concatContents [l] = l.content ++ "" from rfl, strAppend_empty]
          rw [hend, concatContents_append, strLength_append, hlen]
          push_cast
          ring
      · exact (hacc x (List.mem_cons_of_mem _ hx)).mono
  · rw [if_pos (by simp [hl])] at hx
    rcases List.mem_cons.mp hx with hx | hx
    · subst hx
      refine ⟨x, [], ?_, hl, by simp, sameExceptCE_refl x, ?_, ?_⟩
      · exact List.sublist_append_right g [x]
      · rw [show concatContents [] = "" from rfl, strAppend_empty]
      · rw [show concatContents [] = "" from rfl]
        simp [String.length]
    · exact (hacc x hx).mono

theorem joinFold_inv (rest : List LogLine) :
    ∀ (acc g : List LogLine), (∀ x ∈ acc, JoinedFrom g x) →
      ∀ x ∈ List.foldl joinStep acc rest, JoinedFrom (g ++ rest) x := by
  induction rest with
  | nil => intro acc g hacc x hx; rw [List.append_nil]; exact hacc x (by simpa using hx)
  | cons l rest ih =>
    intro acc g hacc x hx
    rw [show g ++ l :: rest = (g ++ [l]) ++ rest from by simp]
    exact ih (joinStep acc l) (g ++ [l]) (joinStep_inv l hacc) x hx

/-- Every line produced by the per-backend joiner originates from a
classified line of the group followed by later unknown-level group lines. -/
theorem joinGroup_spec (g : List LogLine) :
    ∀ x ∈ joinGroup g, JoinedFrom g x := by
  intro x hx
  rw [joinGroup, List.mem_reverse] at hx
  have := joinFold_inv g [] [] (by simp) x hx
  rwa [List.nil_append] at this


/-! ### C6: backend isolation -/

/-- **C6** (backend isolation): every line the per-backend joiner produces
for backend `p`'s group has backend pid `p`, and its content is exactly the
concatenation of the contents of a (classified head plus later unknown-level
continuations) sublist of that same group — so interleaved lines of other
backends are never merged in. -/
theorem C6_backend_isolation (ready : List LogLine) (p : Int) (x : LogLine)
    (hx : x ∈ joinGroup (backendGroup ready p)) :
    x.backendPid = p ∧
    ∃ c sub, (c :: sub).Sublist (backendGroup ready p) ∧
      x.content = c.content ++ concatContents sub ∧
      x.byteEnd = c.byteEnd + ((concatContents sub).length : Int) := by
  obtain ⟨c, sub, hsub, hc, hlev, hsame, hcont, hend⟩ := joinGroup_spec _ x hx
  have hcmem : c ∈ backendGroup ready p :=
    hsub.subset (List.mem_cons_self c sub)
  have hcp : c.backendPid = p := by
    have := (List.mem_filter.mp hcmem).2
    simpa using this
  exact ⟨hsame.2.1.trans hcp, c, sub, hsub, hcont, hend⟩

/-- A classified pid-7 line. -/
def c6a : LogLine := { content := "m", logLevel := 1, backendPid := 7, collectedAt := 0 }

/-- A classified pid-8 line arriving between the two pid-7 lines. -/
def c6b : LogLine := { content := "o", logLevel := 1, backendPid := 8, collectedAt := 0 }

/-- An unknown-level pid-7 continuation line. -/
def c6u : LogLine := { content := "n", logLevel := 0, backendPid := 7, collectedAt := 0 }

/-- An interleaved two-backend batch. -/
def c6ready : List LogLine := [c6a, c6b, c6u]

/-- The single joined line of the pid-7 group of `c6ready`. -/
def c6joined : LogLine := { c6a with content := "mn", byteEnd := 1 }

/-- Witness for C6: the line joined from the pid-7 group of an interleaved
two-backend batch carries backend pid 7. -/
theorem C6_backend_isolation_witness : c6joined.backendPid = 7 :=
  (C6_backend_isolation c6ready 7 c6joined (by decide)).1


/-! ### Head of the joiner accumulator -/

/-- A group of only unknown-level lines joins to nothing. -/
theorem joinFold_nil_of_unknown (g : List LogLine)
    (h : ∀ c ∈ g, c.logLevel = LogLineInformation_UNKNOWN) :
    List.foldl joinStep [] g = [] := by
  induction g with
  | nil => rfl
  | cons l g ih =>
    have hl : l.logLevel = LogLineInformation_UNKNOWN := h l (List.mem_cons_self _ _)
    have : joinStep [] l = [] := by simp [joinStep, hl]
    rw [List.foldl_cons, this]
    exact ih (fun c hc => h c (List.mem_cons_of_mem _ hc))

/-- The joiner accumulator never becomes empty once nonempty. -/
theorem joinFold_ne_nil (g : List LogLine) :
    ∀ acc : List LogLine, acc ≠ [] → List.foldl joinStep acc g ≠ [] := by
  induction g with
  | nil => intro acc h; exact h
  | cons l g ih =>
    intro acc h
    rw [List.foldl_cons]
    refine ih _ ?_
    unfold joinStep
    split
    · exact List.cons_ne_nil _ _
    · match acc, h with
      | a :: r, _ => exact List.cons_ne_nil _ _

/-- A group containing a classified line joins to a nonempty accumulator. -/
theorem joinAcc_ne_nil (g : List LogLine)
    (h : ∃ c ∈ g, c.logLevel ≠ LogLineInformation_UNKNOWN) : joinAcc g ≠ [] := by
  induction g with
  | nil => simp at h
  | cons l g ih =>
    by_cases hl : l.logLevel = LogLineInformation_UNKNOWN
    · obtain ⟨c, hc, hcl⟩ := h
      rcases List.mem_cons.mp hc with rfl | hc
      · exact absurd hl hcl
      · have hne := ih ⟨c, hc, hcl⟩
        unfold joinAcc at hne ⊢
        rw [List.foldl_cons]
        have hstep : joinStep [] l = [] := by simp [joinStep, hl]
        rwa [hstep]
    · unfold joinAcc
      rw [List.foldl_cons]
      refine joinFold_ne_nil g _ ?_
      have : joinStep [] l = [l] := by simp [joinStep, hl]
      rw [this]
      exact List.cons_ne_nil _ _

/-- The head of the joiner accumulator agrees, on every field the
continuation step leaves untouched, with the *last* classified line of the
group processed so far — the "nearest preceding classified line". -/
theorem joinAcc_head (g : List LogLine) :
    ∀ last rest, joinAcc g = last :: rest →
      ∃ c, (g.filter (fun l => l.logLevel != LogLineInformation_UNKNOWN)).getLast? = some c ∧
        sameExceptCE last c ∧ c.logLevel ≠ LogLineInformation_UNKNOWN := by
  induction g using List.reverseRecOn with
  | nil => intro last rest h; exact absurd h (by simp [joinAcc])
  | append_singleton g l ih =>
    have hsnoc : joinAcc (g ++ [l]) = joinStep (joinAcc g) l := by
      unfold joinAcc
      rw [List.foldl_append]
      rfl
    by_cases hl : l.logLevel = LogLineInformation_UNKNOWN
    · have hfilter : (g ++ [l]).filter (fun x => x.logLevel != LogLineInformation_UNKNOWN) =
          g.filter (fun x => x.logLevel != LogLineInformation_UNKNOWN) := by
        rw [List.filter_append]
        simp [hl]
      intro last rest h
      rw [hsnoc] at h
      unfold joinStep at h
      rw [if_neg (by simp [hl])] at h
      cases hacc : joinAcc g with
      | nil => rw [hacc] at h; exact absurd h (by simp)
      | cons a r =>
        rw [hacc] at h
        obtain ⟨hlast, hrest⟩ := List.cons.inj h
        obtain ⟨c, hg, hsame, hcl⟩ := ih a r hacc
        refine ⟨c, by rw [hfilter]; exact hg, ?_, hcl⟩
        rw [← hlast]
        exact hsame
    · intro last rest h
      rw [hsnoc] at h
      unfold joinStep at h
      rw [if_pos (by simp [hl])] at h
      refine ⟨l, ?_, ?_, hl⟩
      · rw [List.filter_append]
        rw [show List.filter (fun x => x.logLevel != LogLineInformation_UNKNOWN) [l] = [l] from by
          simp [hl]]
        exact List.getLast?_concat _
      · rw [← (List.cons.inj h).1]
        exact sameExceptCE_refl l


/-- The joiner's continuation step applied to one receiving line: content
appended with no separator, end offset extended by the continuation length. -/
def extendLine (last u : LogLine) : LogLine :=
  { last with content := last.content ++ u.content,
              byteEnd := last.byteEnd + (u.content.length : Int) }

/-! ### C8: joiner continuation -/

/-- Two unknown-level lines of one backend group. -/
def c8u1 : LogLine := { content := "p", logLevel := 0, backendPid := 9, collectedAt := 0 }

/-- Second unknown-level line; not the group's first line. -/
def c8u2 : LogLine := { content := "q", logLevel := 0, backendPid := 9, collectedAt := 0 }

/-- **C8 counterexample**: in the group `[c8u1, c8u2]`, line `c8u2` has
unknown level and is *not* the group's first line, yet no preceding
classified line exists, and the joiner emits no line at all — its nonempty
content is appended to nothing, refuting the claim for such lines. -/
theorem C8_counterexample :
    c8u2.logLevel = LogLineInformation_UNKNOWN ∧
    joinGroup [c8u1, c8u2] = [] ∧ c8u2.content ≠ "" := by
  decide

/-- **C8 amended** (joiner continuation): within one group, an unknown-level
line `u` that is preceded by at least one *classified* line is appended
directly (no separator) to the joiner's current last line, whose end offset
grows by exactly `u`'s content length; that receiving line agrees, on every
field the continuation step leaves untouched, with the nearest preceding
classified line (the last classified line before `u`). -/
theorem C8_joiner_continuation (pre : List LogLine) (u : LogLine)
    (hu : u.logLevel = LogLineInformation_UNKNOWN)
    (hpre : ∃ c ∈ pre, c.logLevel ≠ LogLineInformation_UNKNOWN) :
    ∃ last rest, joinAcc pre = last :: rest ∧
      joinAcc (pre ++ [u]) = extendLine last u :: rest ∧
      joinGroup (pre ++ [u]) = rest.reverse ++ [extendLine last u] ∧
      ∃ c, (pre.filter (fun l => l.logLevel != LogLineInformation_UNKNOWN)).getLast? = some c ∧
        sameExceptCE last c ∧ c.logLevel ≠ LogLineInformation_UNKNOWN := by
  cases hacc : joinAcc pre with
  | nil => exact absurd hacc (joinAcc_ne_nil pre hpre)
  | cons last rest =>
    have hsnoc : joinAcc (pre ++ [u]) = joinStep (joinAcc pre) u := by
      unfold joinAcc
      rw [List.foldl_append]
      rfl
    have hstep : joinAcc (pre ++ [u]) = extendLine last u :: rest := by
      rw [hsnoc, hacc]
      unfold joinStep extendLine
      rw [if_neg (by simp [hu])]
    obtain ⟨c, hg, hsame, hcl⟩ := joinAcc_head pre last rest hacc
    refine ⟨last, rest, rfl, hstep, ?_, c, hg, hsame, hcl⟩
    rw [joinGroup, hstep, List.reverse_cons]

/-- Witness for the amended C8: the unknown-level line `c6u` after the
classified line `c6a` is appended to it and extends its end offset by one. -/
theorem C8_joiner_continuation_witness :
    joinAcc ([c6a] ++ [c6u]) = [extendLine c6a c6u] := by
  obtain ⟨last, rest, h1, h2, h3, h4⟩ :=
    C8_joiner_continuation [c6a] c6u (by decide) ⟨c6a, by decide, by decide⟩
  have h0 : joinAcc [c6a] = [c6a] := by decide
  rw [h0] at h1
  obtain ⟨hlast, hrest⟩ := List.cons.inj h1
  rw [h2, ← hlast, ← hrest]

/-! ### C10: leading unknown-level lines are discarded from metadata -/

/-- **C10 amended** (leading unknown discarded from metadata): an
unknown-level line `u` preceded by no classified line in its group is dropped
by the joiner — the joined output is exactly that of the group without `u` —
and, being ready, `u` is never in the too-fresh partition, hence absent from
the backlog on every path that returns the too-fresh partition
(nothing-to-send, debug, test, grant-denied, upload-success).  (Its raw
content does, however, remain in the packaged byte store: see the
counterexample.) -/
theorem C10_leading_unknown_discarded (pre post : List LogLine) (u : LogLine)
    (hu : u.logLevel = LogLineInformation_UNKNOWN)
    (hpre : ∀ c ∈ pre, c.logLevel = LogLineInformation_UNKNOWN) :
    joinGroup (pre ++ u :: post) = joinGroup (pre ++ post) ∧
    ∀ server logLines opts env,
      u ∈ readyOf env logLines →
      (AnalyzeInGroupsAndSend server logLines opts env).backlog = tooFreshOf env logLines →
      u ∉ (AnalyzeInGroupsAndSend server logLines opts env).backlog := by
  constructor
  · have hnil : List.foldl joinStep [] pre = [] := joinFold_nil_of_unknown pre hpre
    have hstep : joinStep [] u = [] := by simp [joinStep, hu]
    have h1 : joinAcc (pre ++ u :: post) = List.foldl joinStep [] post := by
      unfold joinAcc
      rw [List.foldl_append, hnil, List.foldl_cons, hstep]
    have h2 : joinAcc (pre ++ post) = List.foldl joinStep [] post := by
      unfold joinAcc
      rw [List.foldl_append, hnil]
    rw [joinGroup, joinGroup, h1, h2]
  · intro server logLines opts env hready hb hmem
    rw [hb] at hmem
    rw [mem_readyOf] at hready
    rw [mem_tooFreshOf] at hmem
    rw [hready.2] at hmem
    exact absurd hmem.2 (by decide)

/-- A classified pid-1 ready line packaged first into the store. -/
def c10c : LogLine := { content := "h", logLevel := 1, backendPid := 1, collectedAt := 0 }

/-- An unknown-level pid-2 ready line with no classified predecessor in its
group; the joiner discards it from the line metadata. -/
def c10u : LogLine := { content := "zzz", logLevel := 0, backendPid := 2, collectedAt := 0 }

/-- Environment for the successful-upload path. -/
def c10env : SendEnv := { demoEnv with grantResult := some { valid := true } }

/-- **C10 counterexample**: the discarded line `c10u` stands alone in its
backend group (no preceding classified line), its line record reaches no
output line — yet the store handed to the upload call is `"h" ++ "zzz"`:
the discarded line's content *is* part of the upload, refuting the claim's
"appears in no upload". -/
theorem C10_counterexample :
    c10u.logLevel = LogLineInformation_UNKNOWN ∧
    backendGroup (packedOf c10env [c10c, c10u]).1 2 =
      [{ c10u with byteStart := 1, byteContentStart := 1, byteEnd := 3 }] ∧
    joinGroup (backendGroup (packedOf c10env [c10c, c10u]).1 2) = [] ∧
    uploadedStores (AnalyzeInGroupsAndSend demoServer [c10c, c10u] demoOpts c10env) =
      ["h" ++ c10u.content] := by
  decide

/-- Witness for the amended C10: the unjoinable line `c10u` is dropped by the
joiner and absent from the upload-success backlog. -/
theorem C10_leading_unknown_discarded_witness :
    joinGroup ([] ++ c10u :: [c10c]) = joinGroup ([] ++ [c10c]) ∧
    c10u ∉ (AnalyzeInGroupsAndSend demoServer [c10c, c10u] demoOpts c10env).backlog := by
  have h := C10_leading_unknown_discarded [] [c10c] c10u (by decide) (by decide)
  exact ⟨h.1, h.2 demoServer [c10c, c10u] demoOpts c10env (by decide) (by decide)⟩


/-! ### C9: test-mode signalling -/

/-- An analyzer output line carrying the identity marker for section `"s"`. -/
def c9id : LogLine :=
  { content := "i", logLevel := 1, backendPid := 0, collectedAt := 0,
    classification := LogLineInformation_PGA_COLLECTOR_IDENTIFY,
    details := [("config_section", "s")] }

/-- Test-mode options. -/
def c9opts : CollectionOpts := { debugLogs := false, testRun := true }

/-- Environment whose analyzer reports the identity marker twice. -/
def c9envTwo : SendEnv := { demoEnv with analyze := fun _ => ([c9id, c9id], []) }

/-- **C9 counterexample**: with two matching identity-marker output lines the
pipeline sends on the test channel twice — one send per matching line — so it
does *not* signal "at most once". -/
theorem C9_counterexample :
    (AnalyzeInGroupsAndSend demoServer [demoR] c9opts c9envTwo).effects.testSignals = 2 := by
  decide

/-- **C9 amended** (test-mode signal): in test mode, when the pipeline
reaches the test branch (ready lines exist, the temp store was allocated,
debug mode is off) and at least one output line matches the local identity,
it signals on the test channel exactly once *per matching line* (hence at
least once) and returns only the too-fresh lines.  (Whether a send blocks is
a property of the caller-supplied channel, outside this model.) -/
theorem C9_test_mode_signal (server : Server) (logLines : List LogLine)
    (opts : CollectionOpts) (env : SendEnv)
    (hdbg : opts.debugLogs = false) (htest : opts.testRun = true)
    (htmp : env.tmpFileErr = false)
    (hready : readyOf env logLines ≠ [])
    (hmatch : matchCountOf server env logLines ≠ 0) :
    (AnalyzeInGroupsAndSend server logLines opts env).effects.testSignals =
      matchCountOf server env logLines ∧
    1 ≤ (AnalyzeInGroupsAndSend server logLines opts env).effects.testSignals ∧
    (AnalyzeInGroupsAndSend server logLines opts env).backlog = tooFreshOf env logLines := by
  have hfl : fileLinesOf env logLines ≠ [] := by
    intro hnil
    apply hmatch
    rw [matchCountOf, hnil]
    rfl
  have hmain : (AnalyzeInGroupsAndSend server logLines opts env).effects.testSignals =
      matchCountOf server env logLines ∧
      (AnalyzeInGroupsAndSend server logLines opts env).backlog = tooFreshOf env logLines := by
    unfold AnalyzeInGroupsAndSend
    repeat' split
    all_goals simp_all
  exact ⟨hmain.1, hmain.1 ▸ Nat.one_le_iff_ne_zero.mpr hmatch, hmain.2⟩

/-- Environment whose analyzer reports the identity marker once. -/
def c9envOne : SendEnv := { demoEnv with analyze := fun _ => ([c9id], []) }

/-- Witness for the amended C9 at a concrete one-match test run. -/
theorem C9_test_mode_signal_witness :
    (AnalyzeInGroupsAndSend demoServer [demoR] c9opts c9envOne).effects.testSignals =
      matchCountOf demoServer c9envOne [demoR] ∧
    1 ≤ (AnalyzeInGroupsAndSend demoServer [demoR] c9opts c9envOne).effects.testSignals ∧
    (AnalyzeInGroupsAndSend demoServer [demoR] c9opts c9envOne).backlog =
      tooFreshOf c9envOne [demoR] :=
  C9_test_mode_signal demoServer [demoR] c9opts c9envOne rfl rfl rfl
    (by decide) (by decide)

/-! ### C3: resource release -/

/-- A ready line with unknown level and nonzero pid: the joiner drops it, so
with an analyzer that extracts nothing the batch has no output lines and no
samples. -/
def c3u : LogLine := { content := "x", logLevel := 0, backendPid := 42, collectedAt := 0 }

/-- Environment whose analyzer produces no output lines and no samples. -/
def c3env : SendEnv := { demoEnv with analyze := fun _ => ([], []) }

/-- **C3** (resource-release violation, evaluated): on the nothing-to-send
path the temporary store was allocated (and written to), but the `Cleanup`
call — which releases the stores of the `LogFile`s held by the `LogState` —
runs before `logState.LogFiles` is assigned, so no store is released: the
allocated temp file leaks, contradicting "no path may leak it". -/
theorem C3_nothing_to_send_leak :
    (AnalyzeInGroupsAndSend demoServer [c3u] demoOpts c3env).effects.tmpAllocated = true ∧
    (AnalyzeInGroupsAndSend demoServer [c3u] demoOpts c3env).effects.cleanedFiles = [] ∧
    (packedOf c3env [c3u]).2 = "x" := by
  decide


/-! ### C1: packager byte ranges -/

/-- The packaged line records when every write succeeds: a map over the list
with a running byte cursor. -/
def packMap : Int → List LogLine → List LogLine
  | _, [] => []
  | cur, l :: rest =>
    { l with byteStart := cur, byteContentStart := cur,
             byteEnd := cur + (l.content.length : Int) - 1 }
      :: packMap (cur + (l.content.length : Int)) rest

/-- With the always-succeeding write oracle the packaging loop is `packMap`
on the lines and appends all contents to the store. -/
theorem packageLoop_noErr (ls : List LogLine) :
    ∀ (idx : Nat) (cur : Int) (store : String),
      packageLoop noWriteErr idx cur store ls =
        (packMap cur ls, store ++ concatContents ls) := by
  induction ls with
  | nil =>
    intro idx cur store
    simp [packageLoop, packMap, concatContents, strAppend_empty]
  | cons l rest ih =>
    intro idx cur store
    simp only [packageLoop, noWriteErr, Bool.false_eq_true, if_false, ih,
      packMap, concatContents]
    rw [strAppend_assoc]

/-- Sum of the content lengths of the first `i` lines. -/
def prefixChars : List LogLine → Nat → Nat
  | _, 0 => 0
  | [], _ + 1 => 0
  | l :: rest, i + 1 => l.content.length + prefixChars rest i

theorem prefixChars_succ (ls : List LogLine) :
    ∀ (i : Nat) (l : LogLine), ls.get? i = some l →
      prefixChars ls (i + 1) = prefixChars ls i + l.content.length := by
  induction ls with
  | nil => intro i l h; simp at h
  | cons x rest ih =>
    intro i l h
    cases i with
    | zero =>
      rw [List.get?_cons_zero] at h
      obtain rfl := Option.some.inj h
      simp [prefixChars]
    | succ i =>
      rw [List.get?_cons_succ] at h
      show x.content.length + prefixChars rest (i + 1) = _
      rw [ih i l h]
      show _ = x.content.length + prefixChars rest i + l.content.length
      omega

theorem prefixChars_mono (ls : List LogLine) :
    ∀ i j : Nat, i ≤ j → prefixChars ls i ≤ prefixChars ls j := by
  induction ls with
  | nil =>
    intro i j h
    cases i <;> cases j <;> simp [prefixChars]
  | cons x rest ih =>
    intro i j h
    cases i with
    | zero =>
      show prefixChars (x :: rest) 0 ≤ _
      rw [show prefixChars (x :: rest) 0 = 0 from rfl]
      exact Nat.zero_le _
    | succ i =>
      cases j with
      | zero => omega
      | succ j =>
        show x.content.length + prefixChars rest i ≤ x.content.length + prefixChars rest j
        exact Nat.add_le_add_left (ih i j (Nat.le_of_succ_le_succ h)) _

/-- Index-wise description of `packMap`. -/
theorem packMap_get? (ls : List LogLine) :
    ∀ (cur : Int) (i : Nat),
      (packMap cur ls).get? i = (ls.get? i).map (fun l =>
        { l with byteStart := cur + (prefixChars ls i : Int),
                 byteContentStart := cur + (prefixChars ls i : Int),
                 byteEnd := cur + (prefixChars ls i : Int) + (l.content.length : Int) - 1 }) := by
  induction ls with
  | nil => intro cur i; simp [packMap]
  | cons l rest ih =>
    intro cur i
    cases i with
    | zero =>
      simp [packMap, prefixChars]
    | succ i =>
      rw [packMap, List.get?_cons_succ, List.get?_cons_succ, ih]
      cases h : rest.get? i with
      | none => simp
      | some x =>
        simp only [Option.map_some']
        have hp : (prefixChars (l :: rest) (i + 1) : Int) =
            (l.content.length : Int) + (prefixChars rest i : Int) := by
          show ((l.content.length + prefixChars rest i : Nat) : Int) = _
          push_cast
          ring_nf
        rw [hp]
        congr 1
        ring


/-- Slice of the packaged store over the inclusive range `[start, fin]`
(empty when `fin < start`). -/
def sliceStore (store : String) (start fin : Int) : String :=
  String.mk ((store.data.drop start.toNat).take (fin - start + 1).toNat)

/-- Slicing at an inner string's exact range recovers it. -/
theorem sliceStore_append (A s B : String) :
    sliceStore (A ++ (s ++ B)) (A.length : Int)
      ((A.length : Int) + (s.length : Int) - 1) = s := by
  unfold sliceStore
  have h2 : (A.length : Int) + (s.length : Int) - 1 - (A.length : Int) + 1 =
      (s.length : Int) := by ring
  rw [h2, Int.toNat_natCast, Int.toNat_natCast]
  rw [strData_append, strData_append]
  rw [show A.length = A.data.length from rfl]
  rw [List.drop_left]
  rw [show s.length = s.data.length from rfl]
  rw [List.take_left]

/-- Splitting the concatenated contents at index `i`, with the left part's
length being the prefix sum. -/
theorem concatContents_split (ls : List LogLine) :
    ∀ (i : Nat) (l : LogLine), ls.get? i = some l →
      concatContents ls =
        concatContents (ls.take i) ++ (l.content ++ concatContents (ls.drop (i + 1))) ∧
      (concatContents (ls.take i)).length = prefixChars ls i := by
  induction ls with
  | nil => intro i l h; simp at h
  | cons x rest ih =>
    intro i l h
    cases i with
    | zero =>
      rw [List.get?_cons_zero] at h
      obtain rfl := Option.some.inj h
      constructor
      · show concatContents (x :: rest) = concatContents [] ++ (x.content ++ concatContents rest)
        rw [show concatContents [] = "" from rfl, strEmpty_append]
        rfl
      · rfl
    | succ i =>
      rw [List.get?_cons_succ] at h
      obtain ⟨hsplit, hlen⟩ := ih i l h
      constructor
      · show x.content ++ concatContents rest = concatContents (x :: rest.take i) ++ _
        rw [show concatContents (x :: rest.take i) =
            x.content ++ concatContents (rest.take i) from rfl]
        rw [hsplit, strAppend_assoc]
        rfl
      · show (concatContents (x :: rest.take i)).length = _
        rw [show concatContents (x :: rest.take i) =
            x.content ++ concatContents (rest.take i) from rfl]
        rw [strLength_append, hlen]
        rfl

/-- **C1** (packager byte-range invariant): when every write succeeds, the
`i`-th packaged line keeps its content and records
`byteStart = byteContentStart = Σ earlier lengths` and
`byteEnd = byteStart + length - 1`; slicing the store at `[start, end]`
reproduces the content exactly; and any two packaged lines `i < j` satisfy
`end_i + 1 ≤ start_j` (non-overlapping, order-preserving). -/
theorem C1_byte_range_invariant (ready : List LogLine) :
    (∀ (i : Nat) (l : LogLine), ready.get? i = some l →
      (packageLines noWriteErr ready).1.get? i = some
        { l with byteStart := (prefixChars ready i : Int),
                 byteContentStart := (prefixChars ready i : Int),
                 byteEnd := (prefixChars ready i : Int) + (l.content.length : Int) - 1 } ∧
      sliceStore (packageLines noWriteErr ready).2 (prefixChars ready i : Int)
        ((prefixChars ready i : Int) + (l.content.length : Int) - 1) = l.content) ∧
    (∀ (i j : Nat) (pi pj : LogLine), i < j →
      (packageLines noWriteErr ready).1.get? i = some pi →
      (packageLines noWriteErr ready).1.get? j = some pj →
      pi.byteEnd + 1 ≤ pj.byteStart) := by
  have hpack : packageLines noWriteErr ready = (packMap 0 ready, concatContents ready) := by
    rw [packageLines, packageLoop_noErr, strEmpty_append]
  constructor
  · intro i l hl
    constructor
    · rw [hpack, packMap_get?, hl]
      simp
    · rw [hpack]
      obtain ⟨hsplit, hlen⟩ := concatContents_split ready i l hl
      show sliceStore (concatContents ready) _ _ = l.content
      rw [hsplit, ← hlen]
      exact sliceStore_append _ _ _
  · intro i j pi pj hij hi hj
    rw [hpack, packMap_get?] at hi hj
    cases hli : ready.get? i with
    | none => rw [hli] at hi; simp at hi
    | some li =>
      cases hlj : ready.get? j with
      | none => rw [hlj] at hj; simp at hj
      | some lj =>
        rw [hli] at hi
        rw [hlj] at hj
        simp only [Option.map_some'] at hi hj
        obtain rfl := Option.some.inj hi
        obtain rfl := Option.some.inj hj
        show (0 : Int) + (prefixChars ready i : Int) + (li.content.length : Int) - 1 + 1 ≤
          (0 : Int) + (prefixChars ready j : Int)
        have hsucc : prefixChars ready (i + 1) = prefixChars ready i + li.content.length :=
          prefixChars_succ ready i li hli
        have hle : prefixChars ready (i + 1) ≤ prefixChars ready j :=
          prefixChars_mono ready (i + 1) j hij
        omega

/-- Two concrete ready lines with contents `"ab"` and `"c"`. -/
def c1l1 : LogLine := { content := "ab", logLevel := 1, backendPid := 1, collectedAt := 0 }

/-- Second concrete ready line. -/
def c1l2 : LogLine := { content := "c", logLevel := 1, backendPid := 1, collectedAt := 0 }

/-- A concrete two-line batch for the C1 witness. -/
def c1ready : List LogLine := [c1l1, c1l2]

/-- `c1l1` as packaged (range `[0, 1]`). -/
def c1p1 : LogLine := { c1l1 with byteStart := 0, byteContentStart := 0, byteEnd := 1 }

/-- `c1l2` as packaged (range `[2, 2]`). -/
def c1p2 : LogLine := { c1l2 with byteStart := 2, byteContentStart := 2, byteEnd := 2 }

/-- Witness for C1 on the concrete batch `["ab", "c"]`. -/
theorem C1_byte_range_invariant_witness :
    ((packageLines noWriteErr c1ready).1.get? 1 = some
        { c1l2 with byteStart := (prefixChars c1ready 1 : Int),
                    byteContentStart := (prefixChars c1ready 1 : Int),
                    byteEnd := (prefixChars c1ready 1 : Int) + (c1l2.content.length : Int) - 1 } ∧
      sliceStore (packageLines noWriteErr c1ready).2 (prefixChars c1ready 1 : Int)
        ((prefixChars c1ready 1 : Int) + (c1l2.content.length : Int) - 1) = c1l2.content) ∧
    c1p1.byteEnd + 1 ≤ c1p2.byteStart :=
  ⟨(C1_byte_range_invariant c1ready).1 1 c1l2 (by decide),
   (C1_byte_range_invariant c1ready).2 0 1 c1p1 c1p2 (by decide) (by decide) (by decide)⟩

end Collector
